import Mathlib

namespace TrendRadar

/-- Boolean prefix test on character lists: `listPrefix n h` holds when `n` is a
prefix of `h`.  Together with `listInfix` this models the Python substring
operator `needle in hay`. -/
def listPrefix : List Char → List Char → Bool
  | [], _ => true
  | _ :: _, [] => false
  | a :: as, b :: bs => a == b && listPrefix as bs

/-- Boolean infix test on character lists, the recursive unfolding of the Python
substring operator `needle in hay`. -/
def listInfix (n : List Char) : List Char → Bool
  | [] => listPrefix n []
  | b :: bs => listPrefix n (b :: bs) || listInfix n bs

/-- Model of the Python substring test `needle in hay` on strings.  An empty
needle is contained in every string, as in Python. -/
def pyContains (needle hay : String) : Bool :=
  listInfix needle.toList hay.toList

/-- The whitespace class stripped by the Python `str.strip()` default
(restricted to the ASCII whitespace characters). -/
def pyIsSpace (c : Char) : Bool :=
  c == ' ' || c == '\t' || c == '\n' || c == '\r' || c == '\x0b' || c == '\x0c'

/-- Strip leading and trailing whitespace from a character list. -/
def stripChars (l : List Char) : List Char :=
  ((l.dropWhile pyIsSpace).reverse.dropWhile pyIsSpace).reverse

/-- Model of the Python `str.strip()` method. -/
def pyStrip (s : String) : String :=
  String.mk (stripChars s.data)

/-- Split a character list at every newline character, keeping empty pieces,
the recursion behind the Python `content.split(chr(10))`. -/
def splitNL : List Char → List (List Char)
  | [] => [[]]
  | c :: cs =>
    match splitNL cs with
    | [] => [[c]]
    | l :: ls => if c == '\n' then [] :: l :: ls else (c :: l) :: ls

/-- Model of the Python `content.split` on the newline separator: the list of
lines, keeping empty lines. -/
def pySplitLines (s : String) : List String :=
  (splitNL s.data).map String.mk

/-- Model of the Python `str.startswith`. -/
def pyStartsWith (s mark : String) : Bool :=
  listPrefix mark.data s.data

/-- Model of the Python slice `line[1:]`: drop the first character. -/
def pyDrop1 (s : String) : String :=
  String.mk (s.data.drop 1)

/-- Model of the Python `str.lower()` (character-wise lowering; on the ASCII
range this agrees with Python). -/
def pyLower (s : String) : String :=
  String.mk (s.data.map Char.toLower)

/-- State of one of the two date environment variables `CUSTOM_START_DATE` /
`CUSTOM_END_DATE` in `main.py`: `unset` models the empty string (falsy in the
`if CONFIG[...]` tests), `malformed` a non-empty string on which
`datetime.strptime` raises `ValueError`, and `valid t` a well-formed
`YYYY-MM-DD` string parsing to the instant `t` (seconds). -/
inductive DateSetting
  | unset
  | malformed
  | valid (instant : Int)
deriving DecidableEq, Repr

/-- The four time-related configuration inputs read by
`TrendAnalyzer.calculate_time_range`. -/
structure TimeConfig where
  custom_start_date : DateSetting
  custom_end_date : DateSetting
  history_days : Int
  history_hours : Int
deriving DecidableEq, Repr

/-- The `mode` tag of the resolved time range. -/
inductive TimeMode
  | custom_range
  | from_date
  | duration
deriving DecidableEq, Repr

/-- The resolved analysis window returned by `calculate_time_range`
(the `start_date`, `end_date` and `mode` entries of the result dict;
instants are modelled as seconds, so `timedelta(days=1)` is 86400 and
`timedelta(hours=h)` is `h * 3600`). -/
structure TimeRange where
  start_date : Int
  end_date : Int
  mode : TimeMode
deriving DecidableEq, Repr

/-- The day/hour fallback branch of `calculate_time_range` (`main.py` lines
108-120): `total_hours = HISTORY_DAYS*24 + HISTORY_HOURS`, defaulted to 24 when
non-positive, and the window is `[now - total_hours, now]`. -/
def durationRange (cfg : TimeConfig) (now : Int) : TimeRange :=
  let total_hours := cfg.history_days * 24 + cfg.history_hours
  let total_hours := if total_hours ≤ 0 then 24 else total_hours
  { start_date := now - total_hours * 3600, end_date := now, mode := TimeMode.duration }

/-- `TrendAnalyzer.calculate_time_range` (`main.py` lines 65-120).  The Python
branch structure is `if start and end: try ... except` / `elif start: try ...
except` / duration fallback, so any parse failure in either `try` (and any
combination where the chosen branch raises) falls through to the duration
branch - in particular the `elif` is skipped whenever both variables are
non-empty. -/
def calculate_time_range (cfg : TimeConfig) (now : Int) : TimeRange :=
  match cfg.custom_start_date, cfg.custom_end_date with
  | DateSetting.valid s, DateSetting.valid e =>
      let e2 := if e > now then now else e
      let s2 := if s > e2 then e2 - 86400 else s
      { start_date := s2, end_date := e2, mode := TimeMode.custom_range }
  | DateSetting.valid s, DateSetting.unset =>
      let s2 := if s > now then now - 86400 else s
      { start_date := s2, end_date := now, mode := TimeMode.from_date }
  | _, _ => durationRange cfg now

/-- The three word lists loaded from `frequency_words.txt`
(`TrendAnalyzer.load_frequency_words` / `load_filter_words` /
`load_must_words`). -/
structure RuleSet where
  frequency_words : List String
  filter_words : List String
  must_words : List String
deriving DecidableEq, Repr

/-- Loop body shared by `load_filter_words` (mark `!`) and `load_must_words`
(mark `+`): strip the line, and when it starts with the mark append
`line[1:]` of the stripped line - note the remainder itself is not
re-stripped. -/
def markStep (mark : String) (words : List String) (line : String) : List String :=
  let l := pyStrip line
  if pyStartsWith l mark then words ++ [pyDrop1 l] else words

/-- `TrendAnalyzer.load_filter_words` (`main.py` lines 143-155) on the text
content of `frequency_words.txt`. -/
def load_filter_words (content : String) : List String :=
  (pySplitLines (pyStrip content)).foldl (markStep "!") []

/-- `TrendAnalyzer.load_must_words` (`main.py` lines 157-169). -/
def load_must_words (content : String) : List String :=
  (pySplitLines (pyStrip content)).foldl (markStep "+") []

/-- Loop body of `load_frequency_words`: keep a stripped non-empty line that
starts with none of `#`, `!`, `+`. -/
def freqStep (words : List String) (line : String) : List String :=
  let l := pyStrip line
  if !(l == "") && !(pyStartsWith l "#") && !(pyStartsWith l "!") && !(pyStartsWith l "+") then
    words ++ [l]
  else words

/-- `TrendAnalyzer.load_frequency_words` (`main.py` lines 122-141) on readable
content (the file-missing fallback list is outside this model). -/
def load_frequency_words (content : String) : List String :=
  if pyStrip content = "" then []
  else (pySplitLines (pyStrip content)).foldl freqStep []

/-- The rule set built by `TrendAnalyzer.__init__` from the single source file
content. -/
def rulesOf (content : String) : RuleSet :=
  ⟨load_frequency_words content, load_filter_words content, load_must_words content⟩

/-- `TrendAnalyzer.match_keywords` (`main.py` lines 270-298): empty title check,
then the filter-word scan, then the must-word count check, then the
frequency-word collection, all by case-insensitive substring containment. -/
def match_keywords (rs : RuleSet) (title : String) : List String × Bool :=
  if title = "" then ([], false)
  else
    let title_lower := pyLower title
    if rs.filter_words.any (fun w => pyContains (pyLower w) title_lower) then
      ([], true)
    else if rs.must_words ≠ [] ∧
        (rs.must_words.filter (fun w => pyContains (pyLower w) title_lower)).length <
          rs.must_words.length then
      ([], false)
    else
      (rs.frequency_words.filter (fun w => pyContains (pyLower w) title_lower), false)

/-- One collected headline as consumed by `analyze_data` (fields `title`,
`url`, `rank`, `platform_name`, `timestamp` of the item dicts). -/
structure Headline where
  title : String
  url : String
  rank : Nat
  platform_name : String
  timestamp : String
deriving DecidableEq, Repr

/-- The dict appended to `keyword_matches[primary_keyword]` in `analyze_data`
(`main.py` lines 325-332). -/
structure ClassifiedItem where
  title : String
  platform : String
  rank : Nat
  url : String
  timestamp : String
  all_matched_keywords : List String
deriving DecidableEq, Repr

/-- Build the appended dict from a headline and its matched keyword list. -/
def mkClassifiedItem (h : Headline) (mk : List String) : ClassifiedItem :=
  ⟨h.title, h.platform_name, h.rank, h.url, h.timestamp, mk⟩

/-- `keyword_matches[primary_keyword].append(item)` on a
`defaultdict(list)` modelled as an insertion-ordered association list:
append to the existing group of the key, or create a new group at the end. -/
def insertMatch : List (String × List ClassifiedItem) → String → ClassifiedItem →
    List (String × List ClassifiedItem)
  | [], k, it => [(k, [it])]
  | (k2, its) :: rest, k, it =>
      if k2 = k then (k2, its ++ [it]) :: rest
      else (k2, its) :: insertMatch rest k it

/-- Loop body of the classification pass of `analyze_data` (`main.py` lines
313-332) over the accumulator `(keyword_matches, filtered_count,
matched_count)`. -/
def classify_step (rs : RuleSet) (acc : List (String × List ClassifiedItem) × Nat × Nat)
    (item : Headline) : List (String × List ClassifiedItem) × Nat × Nat :=
  let r := match_keywords rs item.title
  if r.2 then (acc.1, acc.2.1 + 1, acc.2.2)
  else
    match r.1 with
    | [] => acc
    | primary :: rest =>
        (insertMatch acc.1 primary (mkClassifiedItem item (primary :: rest)),
         acc.2.1, acc.2.2 + 1)

/-- One step of `Counter`, as an insertion-ordered association list. -/
def bump : List (String × Nat) → String → List (String × Nat)
  | [], k => [(k, 1)]
  | (k2, n) :: rest, k => if k2 = k then (k2, n + 1) :: rest else (k2, n) :: bump rest k

/-- Stable insertion of an item into a rank-ascending list; `sortRankAsc`
models the stable Python `list.sort(key=lambda x: x[rank])` on each group. -/
def insertRank (x : ClassifiedItem) : List ClassifiedItem → List ClassifiedItem
  | [] => [x]
  | y :: ys => if x.rank ≤ y.rank then x :: y :: ys else y :: insertRank x ys

/-- Stable sort of a group by `rank` ascending (`main.py` lines 347-348). -/
def sortRankAsc : List ClassifiedItem → List ClassifiedItem
  | [] => []
  | x :: xs => insertRank x (sortRankAsc xs)

/-- Stable insertion of a `(keyword, count)` pair into a count-descending
list. -/
def insertDesc (x : String × Nat) : List (String × Nat) → List (String × Nat)
  | [] => [x]
  | y :: ys => if y.2 ≤ x.2 then x :: y :: ys else y :: insertDesc x ys

/-- Stable sort by count descending, modelling the stable
`sorted(..., key=lambda x: x[1], reverse=True)` of `main.py` lines 340-344:
pairs with equal counts keep their original relative order. -/
def sortCountDesc : List (String × Nat) → List (String × Nat)
  | [] => []
  | x :: xs => insertDesc x (sortCountDesc xs)

/-- The `analysis_result` dict built by `TrendAnalyzer.analyze_data`
(`main.py` lines 350-365); `config_summary` keeps the three rule-list sizes. -/
structure AnalysisResult where
  total_items : Nat
  matched_count : Nat
  filtered_count : Nat
  platform_stats : List (String × Nat)
  keyword_matches : List (String × List ClassifiedItem)
  keyword_popularity : List (String × Nat)
  sorted_keywords : List (String × Nat)
  analysis_time : String
  config_summary : Nat × Nat × Nat
deriving DecidableEq, Repr

/-- `TrendAnalyzer.analyze_data` (`main.py` lines 300-368): one classification
pass, popularity counts in group insertion order, the stable descending sort of
the popularity pairs, and the stable rank-ascending sort of each group.
The wall-clock `analysis_time` string is an explicit parameter. -/
def analyze_data (rs : RuleSet) (all_data : List Headline) (now_str : String) :
    AnalysisResult :=
  { total_items := all_data.length
    matched_count := (all_data.foldl (classify_step rs) ([], 0, 0)).2.2
    filtered_count := (all_data.foldl (classify_step rs) ([], 0, 0)).2.1
    platform_stats := all_data.foldl (fun acc it => bump acc it.platform_name) []
    keyword_matches :=
      (all_data.foldl (classify_step rs) ([], 0, 0)).1.map
        (fun g => (g.1, sortRankAsc g.2))
    keyword_popularity :=
      (all_data.foldl (classify_step rs) ([], 0, 0)).1.map (fun g => (g.1, g.2.length))
    sorted_keywords :=
      sortCountDesc
        ((all_data.foldl (classify_step rs) ([], 0, 0)).1.map (fun g => (g.1, g.2.length)))
    analysis_time := now_str
    config_summary :=
      (rs.frequency_words.length, rs.filter_words.length, rs.must_words.length) }

/-- The empty needle is a substring of every string, as in Python. -/
theorem pyContains_nil (s : String) : pyContains "" s = true := by
  have hd : ("" : String).toList = [] := rfl
  unfold pyContains
  rw [hd]
  cases s.toList with
  | nil => rfl
  | cons c cs => simp [listInfix, listPrefix]

/-- Any hit in the filter list short-circuits `match_keywords` to `([], true)`
for a non-empty title. -/
theorem match_keywords_filter_hit (rs : RuleSet) (title : String) (hne : title ≠ "")
    (hex : ∃ w ∈ rs.filter_words, pyContains (pyLower w) (pyLower title) = true) :
    match_keywords rs title = ([], true) := by
  have hany : rs.filter_words.any (fun w => pyContains (pyLower w) (pyLower title)) = true :=
    List.any_eq_true.mpr hex
  simp [match_keywords, hne, hany]

/-- Claim C2, counterexample: with a well-formed start date, a malformed end
date, `HISTORY_DAYS = 1`, `HISTORY_HOURS = 0` and `now = 100000`, the resolver
returns mode `duration`, not the mode `from_date` predicted by the claim. -/
theorem c2_counterexample :
    (calculate_time_range ⟨DateSetting.valid 0, DateSetting.malformed, 1, 0⟩ 100000).mode =
        TimeMode.duration ∧
      TimeMode.duration ≠ TimeMode.from_date := by
  decide

/-- Claim C2 (amended): when the explicit start date is configured and
well-formed but the explicit end date is configured and malformed, the parse
failure aborts the first branch, and since the start-only rule is chained as an
`elif` on the first branch's condition it is skipped entirely: the resolver
falls through to the duration rule, returning the window
`[now - total_hours, now]` with mode `duration` (and no exception). -/
theorem c2_malformed_end_falls_to_duration (s days hours now : Int) :
    calculate_time_range ⟨DateSetting.valid s, DateSetting.malformed, days, hours⟩ now =
      ⟨now - (if days * 24 + hours ≤ 0 then 24 else days * 24 + hours) * 3600, now,
        TimeMode.duration⟩ :=
  rfl

/-- Claim C4, counterexample: with filter word `""` and the empty title, the
filter word is contained in the title (Python `"" in ""` is true) yet
`match_keywords` returns `([], false)` through the empty-title check, so the
claim universally quantified over all titles fails. -/
theorem c4_counterexample :
    pyContains (pyLower "") (pyLower "") = true ∧
      "" ∈ (RuleSet.mk [] [""] []).filter_words ∧
      match_keywords ⟨[], [""], []⟩ "" = ([], false) ∧
      ([], false) ≠ (([] : List String), true) := by
  decide

/-- Claim C4 (amended): for every NON-EMPTY title and every rule set, if any
filter word is contained in the title (case-insensitively), `match_keywords`
returns `([], true)` regardless of the must-word and frequency-word contents;
no further checks run. -/
theorem c4_filter_precedence (rs : RuleSet) (title : String) (hne : title ≠ "")
    (hex : ∃ w ∈ rs.filter_words, pyContains (pyLower w) (pyLower title) = true) :
    match_keywords rs title = ([], true) :=
  match_keywords_filter_hit rs title hne hex

/-- Witness for C4: filter word `bad`, title `BAD x` containing a must-word
miss and a frequency hit, still classified `([], true)`. -/
theorem c4_witness : match_keywords ⟨["x"], ["bad"], ["zz"]⟩ "BAD x" = ([], true) :=
  c4_filter_precedence ⟨["x"], ["bad"], ["zz"]⟩ "BAD x" (by decide)
    ⟨"bad", by decide, by decide⟩

/-- Claim C6: with both explicit dates well-formed and the end date, after
clamping to `now`, strictly earlier than the start date, the resolved window is
`[clamped end - 1 day, clamped end]` with mode `custom_range`. -/
theorem c6_end_before_start_clamp (s e days hours now : Int)
    (h : (if e > now then now else e) < s) :
    calculate_time_range ⟨DateSetting.valid s, DateSetting.valid e, days, hours⟩ now =
      ⟨(if e > now then now else e) - 86400, if e > now then now else e,
        TimeMode.custom_range⟩ := by
  simp only [calculate_time_range]
  rw [if_pos h]

/-- Witness for C6 at `start = 10`, `end = 5`, `now = 100`. -/
theorem c6_witness :
    calculate_time_range ⟨DateSetting.valid 10, DateSetting.valid 5, 1, 0⟩ 100 =
      ⟨-86395, 5, TimeMode.custom_range⟩ := by
  rw [c6_end_before_start_clamp 10 5 1 0 100 (by decide)]
  decide

/-- Claim C7: for every configuration and every resolution instant `now`, the
resolved window satisfies `start_date ≤ end_date` and `end_date ≤ now`. -/
theorem c7_window_invariant (cfg : TimeConfig) (now : Int) :
    (calculate_time_range cfg now).start_date ≤ (calculate_time_range cfg now).end_date ∧
      (calculate_time_range cfg now).end_date ≤ now := by
  obtain ⟨cs, ce, d, hh⟩ := cfg
  cases cs <;> cases ce <;>
    simp only [calculate_time_range, durationRange] <;>
    split_ifs <;> constructor <;> dsimp only <;> omega

/-- Claim C9: aggregation is deterministic; on the same headline list and rule
set the result agrees in every field, the wall-clock `analysis_time` string
being the only input that can differ between two runs. -/
theorem c9_aggregation_deterministic (rs : RuleSet) (data : List Headline) (t1 t2 : String) :
    analyze_data rs data t1 = { analyze_data rs data t2 with analysis_time := t1 } :=
  rfl

/-- Claim C1, counterexample: frequency words `["aa", "bb"]`, two headlines so
that `bb` is matched first; both keywords end with count 1, yet `bb` is ranked
before `aa` although `aa` appears earlier in the frequency-word list - the tie
is broken by group creation order, not list order. -/
theorem c1_counterexample :
    (analyze_data ⟨["aa", "bb"], [], []⟩
          [⟨"bb", "", 1, "p", ""⟩, ⟨"aa", "", 2, "p", ""⟩] "").sorted_keywords =
        [("bb", 1), ("aa", 1)] ∧
      (["aa", "bb"] : List String).indexOf "aa" < (["aa", "bb"] : List String).indexOf "bb" := by
  decide

/-- The fold behind `load_filter_words` / `load_must_words` only appends, so
accumulator members persist. -/
theorem foldl_markStep_acc_mem (m x : String) :
    ∀ (lines : List String) (acc : List String), x ∈ acc →
      x ∈ lines.foldl (markStep m) acc := by
  intro lines
  induction lines with
  | nil => intro acc hx; simpa using hx
  | cons l ls ih =>
    intro acc hx
    rw [List.foldl_cons]
    apply ih
    simp only [markStep]
    split_ifs with hc
    · exact List.mem_append_left _ hx
    · exact hx

/-- Every line of the source whose stripped form starts with the mark
contributes the remainder `line[1:]` of the stripped line to the fold result. -/
theorem mem_foldl_markStep (m : String) :
    ∀ (lines : List String) (acc : List String) (line : String), line ∈ lines →
      pyStartsWith (pyStrip line) m = true →
      pyDrop1 (pyStrip line) ∈ lines.foldl (markStep m) acc := by
  intro lines
  induction lines with
  | nil => intro acc line hmem; simp at hmem
  | cons l ls ih =>
    intro acc line hmem hstart
    rw [List.foldl_cons]
    rcases List.mem_cons.mp hmem with rfl | h2
    · apply foldl_markStep_acc_mem
      simp only [markStep]
      rw [if_pos hstart]
      exact List.mem_append_right _ (List.mem_singleton.mpr rfl)
    · exact ih _ _ h2 hstart

/-- Claim C3 (amended): for every source line whose stripped form starts with
`!`, the remainder of the STRIPPED line after removing the `!` is added to
filter_words verbatim - whitespace between the marker and the word is kept,
no further trimming happens (trailing whitespace is already gone from the
line-level strip); likewise for `+` and must_words. -/
theorem c3_marked_lines_added (content line : String)
    (hline : line ∈ pySplitLines (pyStrip content)) :
    (pyStartsWith (pyStrip line) "!" = true →
      pyDrop1 (pyStrip line) ∈ load_filter_words content) ∧
    (pyStartsWith (pyStrip line) "+" = true →
      pyDrop1 (pyStrip line) ∈ load_must_words content) := by
  constructor
  · intro hs; exact mem_foldl_markStep "!" _ [] line hline hs
  · intro hs; exact mem_foldl_markStep "+" _ [] line hline hs

/-- Claim C3, counterexample: the source line `! a` puts `" a"` (with its
leading space) into filter_words, not the whitespace-trimmed `"a"` the claim
predicts; the `+ b` line behaves the same for must_words. -/
theorem c3_counterexample :
    load_filter_words "! a" = [" a"] ∧ "a" ∉ load_filter_words "! a" ∧
      load_must_words "+ b" = [" b"] ∧ "b" ∉ load_must_words "+ b" := by
  decide

/-- Witness for C3 on the two-line source `!a` / `+b`. -/
theorem c3_witness :
    (pyStartsWith (pyStrip "!a") "!" = true ∧
        pyDrop1 (pyStrip "!a") ∈ load_filter_words "!a\n+b") ∧
      (pyStartsWith (pyStrip "+b") "+" = true ∧
        pyDrop1 (pyStrip "+b") ∈ load_must_words "!a\n+b") :=
  ⟨⟨by decide, (c3_marked_lines_added "!a\n+b" "!a" (by decide)).1 (by decide)⟩,
    ⟨by decide, (c3_marked_lines_added "!a\n+b" "+b" (by decide)).2 (by decide)⟩⟩

/-- Claim C10: a source line that strips to a bare `!` puts the empty string
into filter_words; then every non-empty title is filtered (`([], true)`), and
only the empty title escapes through the empty-title check, returning
`([], false)`. -/
theorem c10_bare_bang_filters_all (content line : String)
    (hline : line ∈ pySplitLines (pyStrip content)) (hbang : pyStrip line = "!") :
    "" ∈ load_filter_words content ∧
      (∀ title : String, title ≠ "" →
        match_keywords (rulesOf content) title = ([], true)) ∧
      match_keywords (rulesOf content) "" = ([], false) := by
  have hmem : pyDrop1 (pyStrip line) ∈ load_filter_words content := by
    apply mem_foldl_markStep "!" _ [] line hline
    rw [hbang]
    decide
  rw [hbang] at hmem
  have hdrop : pyDrop1 "!" = "" := by decide
  rw [hdrop] at hmem
  refine ⟨hmem, ?_, ?_⟩
  · intro title hne
    apply match_keywords_filter_hit _ _ hne
    exact ⟨"", hmem, by rw [show pyLower "" = "" from rfl]; exact pyContains_nil _⟩
  · simp [match_keywords]

/-- Witness for C10 on the one-line source `!`. -/
theorem c10_witness :
    "" ∈ load_filter_words "!" ∧ match_keywords (rulesOf "!") "ad" = ([], true) ∧
      match_keywords (rulesOf "!") "" = ([], false) := by
  have h := c10_bare_bang_filters_all "!" "!" (by decide) (by decide)
  exact ⟨h.1, h.2.1 "ad" (by decide), h.2.2⟩

/-- A witnessed failure of the predicate makes the filtered list strictly
shorter. -/
theorem filter_length_lt {α : Type} (p : α → Bool) :
    ∀ (l : List α) (x : α), x ∈ l → p x = false → (l.filter p).length < l.length := by
  intro l
  induction l with
  | nil => intro x hx; simp at hx
  | cons a t ih =>
    intro x hx hpx
    rcases List.mem_cons.mp hx with rfl | h2
    · rw [List.filter_cons, if_neg (by simp [hpx])]
      exact Nat.lt_succ_of_le (List.length_filter_le p t)
    · rw [List.filter_cons]
      split_ifs
      · simpa using ih x h2 hpx
      · exact Nat.lt_succ_of_lt (ih x h2 hpx)

/-- When no filter word hits, the must list is non-empty and some must word is
missing from the title, `match_keywords` rejects with `([], false)`. -/
theorem match_keywords_must_reject (rs : RuleSet) (title : String)
    (hf : ∀ w ∈ rs.filter_words, pyContains (pyLower w) (pyLower title) = false)
    (hm : rs.must_words ≠ [])
    (hx : ∃ w ∈ rs.must_words, pyContains (pyLower w) (pyLower title) = false) :
    match_keywords rs title = ([], false) := by
  by_cases hne : title = ""
  · simp [match_keywords, hne]
  · have hany : rs.filter_words.any (fun w => pyContains (pyLower w) (pyLower title)) = false := by
      rw [List.any_eq_false]
      intro w hw
      simp [hf w hw]
    obtain ⟨w, hw, hpw⟩ := hx
    have hlen :
        (rs.must_words.filter (fun v => pyContains (pyLower v) (pyLower title))).length <
          rs.must_words.length :=
      filter_length_lt _ rs.must_words w hw hpw
    simp [match_keywords, hne, hany, hm, hlen]

/-- A headline classified `([], false)` leaves the classification accumulator
unchanged: no group, no filtered_count, no matched_count. -/
theorem classify_step_skip (rs : RuleSet)
    (acc : List (String × List ClassifiedItem) × Nat × Nat) (item : Headline)
    (hmk : match_keywords rs item.title = ([], false)) :
    classify_step rs acc item = acc := by
  simp [classify_step, hmk]

/-- Claim C5: a headline containing no filter word, with a non-empty must list
and at least one must word missing, classifies as `([], false)`; inserting it
anywhere into the headline list leaves every keyword group, filtered_count and
matched_count unchanged and only increments total_items. -/
theorem c5_must_rejection (rs : RuleSet) (hl : Headline) (t : String)
    (pre post : List Headline)
    (hf : ∀ w ∈ rs.filter_words, pyContains (pyLower w) (pyLower hl.title) = false)
    (hm : rs.must_words ≠ [])
    (hx : ∃ w ∈ rs.must_words, pyContains (pyLower w) (pyLower hl.title) = false) :
    match_keywords rs hl.title = ([], false) ∧
      (analyze_data rs (pre ++ hl :: post) t).keyword_matches =
        (analyze_data rs (pre ++ post) t).keyword_matches ∧
      (analyze_data rs (pre ++ hl :: post) t).filtered_count =
        (analyze_data rs (pre ++ post) t).filtered_count ∧
      (analyze_data rs (pre ++ hl :: post) t).matched_count =
        (analyze_data rs (pre ++ post) t).matched_count ∧
      (analyze_data rs (pre ++ hl :: post) t).total_items =
        (analyze_data rs (pre ++ post) t).total_items + 1 := by
  have hmk : match_keywords rs hl.title = ([], false) :=
    match_keywords_must_reject rs hl.title hf hm hx
  have hfold :
      (pre ++ hl :: post).foldl (classify_step rs) ([], 0, 0) =
        (pre ++ post).foldl (classify_step rs) ([], 0, 0) := by
    rw [List.foldl_append, List.foldl_append, List.foldl_cons,
      classify_step_skip rs _ hl hmk]
  refine ⟨hmk, ?_, ?_, ?_, ?_⟩
  · simp only [analyze_data, hfold]
  · simp only [analyze_data, hfold]
  · simp only [analyze_data, hfold]
  · simp only [analyze_data, List.length_append, List.length_cons]
    omega

/-- Witness for C5: must words `aa`, `bb`, title `x aa` missing `bb` while the
frequency word `x` matches. -/
theorem c5_witness :
    match_keywords ⟨["x"], [], ["aa", "bb"]⟩ "x aa" = ([], false) ∧
      (analyze_data ⟨["x"], [], ["aa", "bb"]⟩ [⟨"x aa", "", 1, "p", ""⟩] "").keyword_matches =
        (analyze_data ⟨["x"], [], ["aa", "bb"]⟩ [] "").keyword_matches ∧
      (analyze_data ⟨["x"], [], ["aa", "bb"]⟩ [⟨"x aa", "", 1, "p", ""⟩] "").filtered_count =
        (analyze_data ⟨["x"], [], ["aa", "bb"]⟩ [] "").filtered_count ∧
      (analyze_data ⟨["x"], [], ["aa", "bb"]⟩ [⟨"x aa", "", 1, "p", ""⟩] "").matched_count =
        (analyze_data ⟨["x"], [], ["aa", "bb"]⟩ [] "").matched_count ∧
      (analyze_data ⟨["x"], [], ["aa", "bb"]⟩ [⟨"x aa", "", 1, "p", ""⟩] "").total_items =
        (analyze_data ⟨["x"], [], ["aa", "bb"]⟩ [] "").total_items + 1 :=
  c5_must_rejection ⟨["x"], [], ["aa", "bb"]⟩ ⟨"x aa", "", 1, "p", ""⟩ "" [] []
    (by decide) (by decide) ⟨"bb", by decide, by decide⟩

/-- Membership through `insertDesc`. -/
theorem mem_insertDesc (x y : String × Nat) :
    ∀ s, y ∈ insertDesc x s ↔ y = x ∨ y ∈ s := by
  intro s
  induction s with
  | nil => simp [insertDesc]
  | cons z zs ih =>
    simp only [insertDesc]
    split_ifs with hz
    · simp [List.mem_cons]
    · simp only [List.mem_cons, ih]
      tauto

/-- `insertDesc` preserves the count-descending pairwise order. -/
theorem pairwise_insertDesc (x : String × Nat) :
    ∀ s : List (String × Nat), s.Pairwise (fun a b => b.2 ≤ a.2) →
      (insertDesc x s).Pairwise (fun a b => b.2 ≤ a.2) := by
  intro s
  induction s with
  | nil => intro _; simp [insertDesc]
  | cons z zs ih =>
    intro hs
    rw [List.pairwise_cons] at hs
    obtain ⟨hz, hzs⟩ := hs
    simp only [insertDesc]
    split_ifs with hc
    · refine List.Pairwise.cons ?_ (List.Pairwise.cons hz hzs)
      intro b hb
      rcases List.mem_cons.mp hb with rfl | hb2
      · exact hc
      · exact le_trans (hz b hb2) hc
    · refine List.Pairwise.cons ?_ (ih hzs)
      intro b hb
      rcases (mem_insertDesc x b zs).mp hb with rfl | hb2
      · omega
      · exact hz b hb2

/-- Filtering at a fixed count commutes with `insertDesc`: the skipped prefix
has strictly larger counts, so an inserted pair of that count lands in front of
all its equals. -/
theorem filter_insertDesc (x : String × Nat) (c : Nat) :
    ∀ s, (insertDesc x s).filter (fun p => p.2 == c) =
      if x.2 == c then x :: s.filter (fun p => p.2 == c)
      else s.filter (fun p => p.2 == c) := by
  intro s
  induction s with
  | nil =>
    by_cases hx : (x.2 == c) = true <;> simp [insertDesc, List.filter_cons, hx]
  | cons z zs ih =>
    by_cases hz : z.2 ≤ x.2
    · rw [show insertDesc x (z :: zs) = x :: z :: zs from by simp [insertDesc, hz]]
      by_cases hx : (x.2 == c) = true <;> simp [List.filter_cons, hx]
    · rw [show insertDesc x (z :: zs) = z :: insertDesc x zs from by simp [insertDesc, hz]]
      simp only [List.filter_cons, ih]
      by_cases hx : (x.2 == c) = true
      · have hzc : (z.2 == c) = false := by
          have h1 : x.2 = c := by simpa using hx
          have h2 : x.2 < z.2 := Nat.lt_of_not_le hz
          simp only [beq_eq_false_iff_ne, ne_eq]
          omega
        simp [hx, hzc]
      · simp [hx]

/-- `sortCountDesc` output is pairwise count-descending. -/
theorem sortCountDesc_pairwise :
    ∀ l, (sortCountDesc l).Pairwise (fun a b : String × Nat => b.2 ≤ a.2) := by
  intro l
  induction l with
  | nil => simp [sortCountDesc]
  | cons x xs ih => exact pairwise_insertDesc x _ ih

/-- Stability of `sortCountDesc`: the pairs of any fixed count keep their
original relative order. -/
theorem sortCountDesc_filter (c : Nat) :
    ∀ l, (sortCountDesc l).filter (fun p => p.2 == c) = l.filter (fun p => p.2 == c) := by
  intro l
  induction l with
  | nil => rfl
  | cons x xs ih =>
    simp only [sortCountDesc, filter_insertDesc, ih, List.filter_cons]

/-- Claim C1 (amended): the popularity ranking is the `(keyword, group size)`
pairs sorted by count descending, and for equal counts the tie is broken by the
order in which each keyword's group was first created during the pass over the
headlines (the insertion order of `keyword_popularity`), NOT by the position in
the configured frequency-word list: the pairs of every fixed count appear in
`sorted_keywords` exactly in their `keyword_popularity` order. -/
theorem c1_ranking_count_desc_insertion_stable (rs : RuleSet) (data : List Headline)
    (t : String) :
    (analyze_data rs data t).sorted_keywords.Pairwise (fun a b => b.2 ≤ a.2) ∧
      ∀ c : Nat,
        (analyze_data rs data t).sorted_keywords.filter (fun p => p.2 == c) =
          (analyze_data rs data t).keyword_popularity.filter (fun p => p.2 == c) := by
  constructor
  · exact sortCountDesc_pairwise _
  · intro c
    exact sortCountDesc_filter c _

/-- Keys after `insertMatch`: unchanged when the key exists, appended
otherwise. -/
theorem insertMatch_keys (k : String) (it : ClassifiedItem) :
    ∀ m : List (String × List ClassifiedItem),
      (insertMatch m k it).map Prod.fst =
        if k ∈ m.map Prod.fst then m.map Prod.fst else m.map Prod.fst ++ [k] := by
  intro m
  induction m with
  | nil => simp [insertMatch]
  | cons p rest ih =>
    obtain ⟨k2, its⟩ := p
    by_cases h : k2 = k
    · subst h
      rw [show insertMatch ((k2, its) :: rest) k2 it = (k2, its ++ [it]) :: rest from by
        simp [insertMatch]]
      simp [List.map_cons]
    · rw [show insertMatch ((k2, its) :: rest) k it = (k2, its) :: insertMatch rest k it from by
        simp [insertMatch, h]]
      rw [List.map_cons, List.map_cons, ih]
      by_cases hk : k ∈ rest.map Prod.fst
      · rw [if_pos hk, if_pos (List.mem_cons_of_mem _ hk)]
      · have hnc : k ∉ k2 :: rest.map Prod.fst := by
          intro hc
          rcases List.mem_cons.mp hc with h1 | h2
          · exact h h1.symm
          · exact hk h2
        rw [if_neg hk, if_neg hnc]
        simp

/-- `insertMatch` keeps the group keys duplicate-free. -/
theorem insertMatch_keys_nodup (k : String) (it : ClassifiedItem)
    (m : List (String × List ClassifiedItem)) (h : (m.map Prod.fst).Nodup) :
    ((insertMatch m k it).map Prod.fst).Nodup := by
  rw [insertMatch_keys]
  split_ifs with hk
  · exact h
  · simp [List.nodup_append, h, hk]

/-- Provenance of every item in an `insertMatch` result: it is the inserted
item under the inserted key, or it was already in the group of that key. -/
theorem mem_insertMatch (k : String) (it : ClassifiedItem) :
    ∀ (m : List (String × List ClassifiedItem)) (g : String × List ClassifiedItem),
      g ∈ insertMatch m k it → ∀ x ∈ g.2,
      (x = it ∧ g.1 = k) ∨ ∃ its2, (g.1, its2) ∈ m ∧ x ∈ its2 := by
  intro m
  induction m with
  | nil =>
    intro g hg x hx
    simp only [insertMatch, List.mem_singleton] at hg
    subst hg
    left
    exact ⟨by simpa using hx, rfl⟩
  | cons p rest ih =>
    obtain ⟨k2, its⟩ := p
    intro g hg x hx
    by_cases h : k2 = k
    · subst h
      rw [show insertMatch ((k2, its) :: rest) k2 it = (k2, its ++ [it]) :: rest from by
        simp [insertMatch]] at hg
      rcases List.mem_cons.mp hg with rfl | hg2
      · rcases List.mem_append.mp hx with hx1 | hx2
        · right; exact ⟨its, List.mem_cons_self _ _, hx1⟩
        · left; exact ⟨by simpa using hx2, rfl⟩
      · right; exact ⟨g.2, List.mem_cons_of_mem _ hg2, hx⟩
    · rw [show insertMatch ((k2, its) :: rest) k it = (k2, its) :: insertMatch rest k it from by
        simp [insertMatch, h]] at hg
      rcases List.mem_cons.mp hg with rfl | hg2
      · right; exact ⟨its, List.mem_cons_self _ _, hx⟩
      · rcases ih g hg2 x hx with h1 | ⟨its2, hm2, hx2⟩
        · left; exact h1
        · right; exact ⟨its2, List.mem_cons_of_mem _ hm2, hx2⟩

/-- The inserted item lands in a group carrying the inserted key. -/
theorem mem_insertMatch_self (k : String) (it : ClassifiedItem) :
    ∀ m, ∃ g, g ∈ insertMatch m k it ∧ g.1 = k ∧ it ∈ g.2 := by
  intro m
  induction m with
  | nil => exact ⟨(k, [it]), by simp [insertMatch]⟩
  | cons p rest ih =>
    obtain ⟨k2, its⟩ := p
    by_cases h : k2 = k
    · subst h
      refine ⟨(k2, its ++ [it]), ?_, rfl, by simp⟩
      rw [show insertMatch ((k2, its) :: rest) k2 it = (k2, its ++ [it]) :: rest from by
        simp [insertMatch]]
      exact List.mem_cons_self _ _
    · obtain ⟨g, hg, h1, h2⟩ := ih
      refine ⟨g, ?_, h1, h2⟩
      rw [show insertMatch ((k2, its) :: rest) k it = (k2, its) :: insertMatch rest k it from by
        simp [insertMatch, h]]
      exact List.mem_cons_of_mem _ hg

/-- Existing group contents survive an `insertMatch` under the same key. -/
theorem insertMatch_preserve (k : String) (it : ClassifiedItem) :
    ∀ m (g : String × List ClassifiedItem) (x : ClassifiedItem), g ∈ m → x ∈ g.2 →
      ∃ g2 ∈ insertMatch m k it, g2.1 = g.1 ∧ x ∈ g2.2 := by
  intro m
  induction m with
  | nil => intro g x hg _; simp at hg
  | cons p rest ih =>
    obtain ⟨k2, its⟩ := p
    intro g x hg hx
    by_cases h : k2 = k
    · subst h
      rw [show insertMatch ((k2, its) :: rest) k2 it = (k2, its ++ [it]) :: rest from by
        simp [insertMatch]]
      rcases List.mem_cons.mp hg with rfl | hg2
      · exact ⟨(k2, its ++ [it]), List.mem_cons_self _ _, rfl, List.mem_append_left _ hx⟩
      · exact ⟨g, List.mem_cons_of_mem _ hg2, rfl, hx⟩
    · rw [show insertMatch ((k2, its) :: rest) k it = (k2, its) :: insertMatch rest k it from by
        simp [insertMatch, h]]
      rcases List.mem_cons.mp hg with rfl | hg2
      · exact ⟨(k2, its), List.mem_cons_self _ _, rfl, hx⟩
      · obtain ⟨g2, a, b, c⟩ := ih g x hg2 hx
        exact ⟨g2, List.mem_cons_of_mem _ a, b, c⟩

/-- Reduction of `classify_step` on a matched (non-filtered, non-empty)
classification. -/
theorem classify_step_matched (rs : RuleSet)
    (acc : List (String × List ClassifiedItem) × Nat × Nat) (item : Headline)
    (w : String) (ws : List String)
    (hmk : match_keywords rs item.title = (w :: ws, false)) :
    classify_step rs acc item =
      (insertMatch acc.1 w (mkClassifiedItem item (w :: ws)), acc.2.1, acc.2.2 + 1) := by
  simp [classify_step, hmk]

/-- Reduction of `classify_step` on a filtered classification. -/
theorem classify_step_filtered (rs : RuleSet)
    (acc : List (String × List ClassifiedItem) × Nat × Nat) (item : Headline)
    (mk : List String) (hmk : match_keywords rs item.title = (mk, true)) :
    classify_step rs acc item = (acc.1, acc.2.1 + 1, acc.2.2) := by
  simp [classify_step, hmk]

/-- One classification step preserves the grouping invariant: keys are
duplicate-free and every stored item carries its own classification, with its
first matched keyword equal to the key of its group. -/
theorem classify_step_good (rs : RuleSet)
    (acc : List (String × List ClassifiedItem) × Nat × Nat) (item : Headline)
    (h1 : (acc.1.map Prod.fst).Nodup)
    (h2 : ∀ g ∈ acc.1, ∀ x ∈ g.2,
      match_keywords rs x.title = (x.all_matched_keywords, false) ∧
        x.all_matched_keywords.head? = some g.1) :
    ((classify_step rs acc item).1.map Prod.fst).Nodup ∧
      ∀ g ∈ (classify_step rs acc item).1, ∀ x ∈ g.2,
        match_keywords rs x.title = (x.all_matched_keywords, false) ∧
          x.all_matched_keywords.head? = some g.1 := by
  rcases hmk : match_keywords rs item.title with ⟨mk, isf⟩
  cases isf
  · cases mk with
    | nil =>
      rw [classify_step_skip rs acc item hmk]
      exact ⟨h1, h2⟩
    | cons w ws =>
      rw [classify_step_matched rs acc item w ws hmk]
      constructor
      · exact insertMatch_keys_nodup w _ acc.1 h1
      · intro g hg x hx
        rcases mem_insertMatch w (mkClassifiedItem item (w :: ws)) acc.1 g hg x hx with
          ⟨rfl, hgk⟩ | ⟨its2, hmem, hxin⟩
        · constructor
          · simpa [mkClassifiedItem] using hmk
          · simp [mkClassifiedItem, hgk]
        · exact h2 (g.1, its2) hmem x hxin
  · rw [classify_step_filtered rs acc item mk hmk]
    exact ⟨h1, h2⟩

/-- The classification fold preserves the grouping invariant. -/
theorem foldl_classify_good (rs : RuleSet) :
    ∀ (data : List Headline) (acc : List (String × List ClassifiedItem) × Nat × Nat),
      (acc.1.map Prod.fst).Nodup →
      (∀ g ∈ acc.1, ∀ x ∈ g.2,
        match_keywords rs x.title = (x.all_matched_keywords, false) ∧
          x.all_matched_keywords.head? = some g.1) →
      ((data.foldl (classify_step rs) acc).1.map Prod.fst).Nodup ∧
        ∀ g ∈ (data.foldl (classify_step rs) acc).1, ∀ x ∈ g.2,
          match_keywords rs x.title = (x.all_matched_keywords, false) ∧
            x.all_matched_keywords.head? = some g.1 := by
  intro data
  induction data with
  | nil => intro acc h1 h2; exact ⟨h1, h2⟩
  | cons d ds ih =>
    intro acc h1 h2
    rw [List.foldl_cons]
    obtain ⟨n1, n2⟩ := classify_step_good rs acc d h1 h2
    exact ih _ n1 n2

/-- Group contents survive one classification step. -/
theorem classify_step_mono (rs : RuleSet)
    (acc : List (String × List ClassifiedItem) × Nat × Nat) (item : Headline) :
    ∀ g ∈ acc.1, ∀ x ∈ g.2,
      ∃ g2 ∈ (classify_step rs acc item).1, g2.1 = g.1 ∧ x ∈ g2.2 := by
  intro g hg x hx
  rcases hmk : match_keywords rs item.title with ⟨mk, isf⟩
  cases isf
  · cases mk with
    | nil =>
      rw [classify_step_skip rs acc item hmk]
      exact ⟨g, hg, rfl, hx⟩
    | cons w ws =>
      rw [classify_step_matched rs acc item w ws hmk]
      exact insertMatch_preserve w _ acc.1 g x hg hx
  · rw [classify_step_filtered rs acc item mk hmk]
    exact ⟨g, hg, rfl, hx⟩

/-- Group contents survive the whole classification fold. -/
theorem foldl_classify_mono (rs : RuleSet) :
    ∀ (data : List Headline) (acc : List (String × List ClassifiedItem) × Nat × Nat)
      (g : String × List ClassifiedItem) (x : ClassifiedItem), g ∈ acc.1 → x ∈ g.2 →
      ∃ g2 ∈ (data.foldl (classify_step rs) acc).1, g2.1 = g.1 ∧ x ∈ g2.2 := by
  intro data
  induction data with
  | nil => intro acc g x hg hx; exact ⟨g, hg, rfl, hx⟩
  | cons d ds ih =>
    intro acc g x hg hx
    rw [List.foldl_cons]
    obtain ⟨g2, hg2, he, hx2⟩ := classify_step_mono rs acc d g hg x hx
    obtain ⟨g3, hg3, he3, hx3⟩ := ih _ g2 x hg2 hx2
    exact ⟨g3, hg3, he3.trans he, hx3⟩

/-- Every headline the classifier matches ends up, as its classified dict, in a
group keyed by its first matched keyword. -/
theorem foldl_classify_mem (rs : RuleSet) :
    ∀ (data : List Headline) (acc : List (String × List ClassifiedItem) × Nat × Nat)
      (hl : Headline) (w : String) (ws : List String), hl ∈ data →
      match_keywords rs hl.title = (w :: ws, false) →
      ∃ g ∈ (data.foldl (classify_step rs) acc).1, g.1 = w ∧
        mkClassifiedItem hl (w :: ws) ∈ g.2 := by
  intro data
  induction data with
  | nil => intro acc hl w ws hmem; simp at hmem
  | cons d ds ih =>
    intro acc hl w ws hmem hmk
    rw [List.foldl_cons]
    rcases List.mem_cons.mp hmem with rfl | h2
    · obtain ⟨g, hg, hk, hx⟩ := mem_insertMatch_self w (mkClassifiedItem hl (w :: ws)) acc.1
      have hg2 : g ∈ (classify_step rs acc hl).1 := by
        rw [classify_step_matched rs acc hl w ws hmk]
        exact hg
      obtain ⟨g3, hg3, he3, hx3⟩ := foldl_classify_mono rs ds _ g _ hg2 hx
      exact ⟨g3, hg3, he3.trans hk, hx3⟩
    · exact ih _ hl w ws h2 hmk

/-- Membership through `insertRank`. -/
theorem mem_insertRank (x y : ClassifiedItem) :
    ∀ l, y ∈ insertRank x l ↔ y = x ∨ y ∈ l := by
  intro l
  induction l with
  | nil => simp [insertRank]
  | cons z zs ih =>
    simp only [insertRank]
    split_ifs with hz
    · simp [List.mem_cons]
    · simp only [List.mem_cons, ih]
      tauto

/-- The rank sort is a permutation in the membership sense. -/
theorem mem_sortRankAsc (y : ClassifiedItem) :
    ∀ l, y ∈ sortRankAsc l ↔ y ∈ l := by
  intro l
  induction l with
  | nil => simp [sortRankAsc]
  | cons x xs ih => simp [sortRankAsc, mem_insertRank, ih]

/-- The head of a filtered list is the first element satisfying the
predicate. -/
theorem head?_filter {α : Type} (p : α → Bool) :
    ∀ l : List α, (l.filter p).head? = l.find? p := by
  intro l
  induction l with
  | nil => rfl
  | cons a t ih =>
    by_cases h : p a = true
    · rw [List.filter_cons, if_pos (by simp [h]), List.find?_cons_of_pos _ h]
      rfl
    · rw [List.filter_cons, if_neg (by simp [h]),
        List.find?_cons_of_neg _ (by simp [h]), ih]

/-- A non-empty non-filtered classification result is exactly the list of
frequency words contained in the title, in configured order. -/
theorem matched_eq_filter (rs : RuleSet) (title : String) (mk : List String)
    (hmk : match_keywords rs title = (mk, false)) (hne : mk ≠ []) :
    mk = rs.frequency_words.filter (fun w => pyContains (pyLower w) (pyLower title)) := by
  by_cases h0 : title = ""
  · rw [h0] at hmk
    simp [match_keywords] at hmk
    exact absurd hmk hne
  · simp only [match_keywords, if_neg h0] at hmk
    split_ifs at hmk with hf hm
    · simp at hmk
    · exact absurd (congrArg Prod.fst hmk).symm hne
    · exact (congrArg Prod.fst hmk).symm

/-- Claim C8: in the aggregation result the group keys are duplicate-free,
every grouped item carries its own classification with
`all_matched_keywords.head = group key`, and that key is the first frequency
word in configured list order contained in the title; conversely every matched
headline appears in the group of its first matched keyword. -/
theorem c8_primary_keyword_grouping (rs : RuleSet) (data : List Headline) (t : String) :
    ((analyze_data rs data t).keyword_matches.map Prod.fst).Nodup ∧
      (∀ g ∈ (analyze_data rs data t).keyword_matches, ∀ x ∈ g.2,
        match_keywords rs x.title = (x.all_matched_keywords, false) ∧
          x.all_matched_keywords.head? = some g.1 ∧
          rs.frequency_words.find? (fun w => pyContains (pyLower w) (pyLower x.title)) =
            some g.1) ∧
      ∀ hl ∈ data, ∀ (w : String) (ws : List String),
        match_keywords rs hl.title = (w :: ws, false) →
        ∃ g ∈ (analyze_data rs data t).keyword_matches, g.1 = w ∧
          mkClassifiedItem hl (w :: ws) ∈ g.2 := by
  obtain ⟨n1, n2⟩ := foldl_classify_good rs data ([], 0, 0) (by simp) (by simp)
  simp only [analyze_data]
  refine ⟨?_, ?_, ?_⟩
  · rw [List.map_map]
    exact n1
  · intro g hg x hx
    obtain ⟨g0, hg0, rfl⟩ := List.mem_map.mp hg
    have hx0 : x ∈ g0.2 := (mem_sortRankAsc x g0.2).mp hx
    obtain ⟨ha, hb⟩ := n2 g0 hg0 x hx0
    refine ⟨ha, hb, ?_⟩
    have hnemp : x.all_matched_keywords ≠ [] := by
      intro hcon
      rw [hcon] at hb
      simp at hb
    have hfilter := matched_eq_filter rs x.title x.all_matched_keywords ha hnemp
    rw [← head?_filter, ← hfilter]
    exact hb
  · intro hl hmem w ws hmk
    obtain ⟨g, hg, hk, hx⟩ := foldl_classify_mem rs data ([], 0, 0) hl w ws hmem hmk
    exact ⟨(g.1, sortRankAsc g.2), List.mem_map_of_mem _ hg, hk,
      (mem_sortRankAsc _ _).mpr hx⟩

/-- Witness for C8 on a single matched headline. -/
theorem c8_witness :
    ((analyze_data ⟨["aa"], [], []⟩ [⟨"aa", "", 1, "p", ""⟩] "").keyword_matches.map
        Prod.fst).Nodup ∧
      match_keywords ⟨["aa"], [], []⟩ "aa" = (["aa"], false) :=
  ⟨(c8_primary_keyword_grouping ⟨["aa"], [], []⟩ [⟨"aa", "", 1, "p", ""⟩] "").1, by decide⟩

end TrendRadar
